import Mathlib

/-!
Verification development for the browserwright CDP relay server and the
playwriter ref-registry.

The pure string utilities (`getCdpUrl`, `RefRegistry.resolveShortRefs`,
`RefRegistry.hasShortRefs`, `RefRegistry.extractRefs`) are shallow embeddings
of the TypeScript sources in `src/browserwright/src/utils.ts` and
`src/playwriter/src/ref-registry.ts`.  JavaScript regular-expression scanning
is embedded as explicit left-to-right scans over `List Char` with the exact
match/advance semantics of `String.prototype.replace` and
`String.prototype.match` with the `g` flag.

The relay itself (`src/cdp-relay.ts`) is shipped as a compiled artifact; only
its tests, its audit report and its callers are available.  Its behavior is
therefore modelled from the specification as a pure state-transition system:
each wire-level stimulus (upgrade request, parsed frame, extension event) is a
function from relay state to relay state plus a list of observable outputs.
-/

/-! ## getCdpUrl (src/browserwright/src/utils.ts) -/

/-- Embedding of `getCdpUrl` from `src/browserwright/src/utils.ts`.  The
source computes a fresh connection id `crypto.randomUUID() + '_' + Date.now()`;
the id is passed explicitly here since it is the only non-deterministic input.
The JavaScript conditional (token ? "?token=" + token : "") treats the empty
string as absent (falsy). -/
def getCdpUrl (id : String) (port : Nat := 19988) (host : String := "127.0.0.1")
    (token : Option String := none) : String :=
  let queryString : String :=
    match token with
    | some t => if t = "" then "" else "?token=" ++ t
    | none => ""
  "ws://" ++ host ++ ":" ++ toString port ++ "/cdp/" ++ id ++ queryString

/-! ## RefRegistry (src/playwriter/src/ref-registry.ts) -/

/-- The three quote characters of the regex character class in
`RefRegistry.resolveShortRefs`: single quote (39), double quote (34) and
backtick (96). -/
def isQuoteChar (c : Char) : Bool :=
  c == Char.ofNat 39 || c == Char.ofNat 34 || c == Char.ofNat 96

/-- One attempt of the regex `(quote)@(e\d+)\1` immediately after an opening
quote `q`: the scanner must see `@`, `e`, a maximal non-empty digit run, and
then the same quote again.  Returns the digit run and the characters after the
closing quote.  Backtracking into `\d+` can never succeed (a shorter digit run
is followed by a digit, not a quote), so taking the maximal run is exact. -/
def tryRefMatch (q : Char) (cs : List Char) : Option (List Char × List Char) :=
  match cs with
  | a :: b :: rest =>
    if a = '@' ∧ b = 'e' then
      match rest.dropWhile Char.isDigit with
      | c :: rest2 =>
        if (rest.takeWhile Char.isDigit) ≠ [] ∧ c = q then
          some (rest.takeWhile Char.isDigit, rest2)
        else none
      | [] => none
    else none
  | _ => none

theorem tryRefMatch_length {q : Char} {cs ds rest2 : List Char}
    (h : tryRefMatch q cs = some (ds, rest2)) : rest2.length < cs.length := by
  match cs with
  | [] => simp [tryRefMatch] at h
  | [a] => simp [tryRefMatch] at h
  | a :: b :: rest =>
    simp only [tryRefMatch] at h
    split at h
    · split at h
      case h_1 c rest2' heq =>
        split at h
        · have hlen : (c :: rest2').length ≤ rest.length := by
            rw [← heq]
            exact (List.dropWhile_sublist Char.isDigit (l := rest)).length_le
          simp only [Option.some.injEq, Prod.mk.injEq] at h
          obtain ⟨-, h2⟩ := h
          subst h2
          simp only [List.length_cons] at hlen ⊢
          omega
        · exact absurd h (by simp)
      case h_2 => exact absurd h (by simp)
    · exact absurd h (by simp)

/-- Embedding of the global regex replace in `RefRegistry.resolveShortRefs`
(code.replace of the pattern (quote)@(e\d+)\1 globally by quote + "aria-ref=" + ref + quote).
The scan moves left to right; on a match the replacement is emitted and the
scan resumes after the closing quote; otherwise one character is copied. -/
def resolveShortRefsAux (l : List Char) : List Char :=
  match l with
  | [] => []
  | c :: cs =>
    if isQuoteChar c then
      match h : tryRefMatch c cs with
      | some (ds, rest2) =>
        c :: (String.toList "aria-ref=e" ++ ds ++ c :: resolveShortRefsAux rest2)
      | none => c :: resolveShortRefsAux cs
    else c :: resolveShortRefsAux cs
termination_by l.length
decreasing_by
  · simp only [List.length_cons]
    exact Nat.lt_succ_of_lt (tryRefMatch_length h)
  · simp only [List.length_cons]
    exact Nat.lt_succ_self _
  · simp only [List.length_cons]
    exact Nat.lt_succ_self _

/-- Function `RefRegistry.resolveShortRefs` from `src/playwriter/src/ref-registry.ts`. -/
def RefRegistry.resolveShortRefs (code : String) : String :=
  String.mk (resolveShortRefsAux code.toList)

/-- Head test of the regex `/@e\d+/`: does a match start at this position? -/
def refAtHead (l : List Char) : Bool :=
  match l with
  | a :: b :: c :: _ => a = '@' && b = 'e' && c.isDigit
  | _ => false

/-- Embedding of `/@e\d+/.test(code)`: a match starts at some position. -/
def hasShortRefsAux (l : List Char) : Bool :=
  match l with
  | [] => false
  | x :: xs => refAtHead (x :: xs) || hasShortRefsAux xs

/-- Function `RefRegistry.hasShortRefs` from `src/playwriter/src/ref-registry.ts`. -/
def RefRegistry.hasShortRefs (code : String) : Bool :=
  hasShortRefsAux code.toList

/-- Embedding of `code.match(/@e\d+/g)`: leftmost, non-overlapping matches,
each taking the maximal digit run; the scan resumes after each match and
advances one character after a failed attempt. -/
def extractRefsAux (l : List Char) : List (List Char) :=
  match l with
  | x :: b :: c :: rest =>
    if x = '@' ∧ b = 'e' ∧ c.isDigit then
      (x :: b :: c :: rest.takeWhile Char.isDigit)
        :: extractRefsAux (rest.dropWhile Char.isDigit)
    else extractRefsAux (b :: c :: rest)
  | _ :: xs => extractRefsAux xs
  | [] => []
termination_by l.length
decreasing_by
  · simp only [List.length_cons]
    have := (List.dropWhile_sublist Char.isDigit (l := rest)).length_le
    omega
  · simp only [List.length_cons]
    omega
  · simp only [List.length_cons]
    omega

/-- Embedding of `[...new Set(xs)]`: deduplication keeping the first
occurrence of each element, preserving first-occurrence order. -/
def setDedup (l : List (List Char)) : List (List Char) :=
  match l with
  | [] => []
  | x :: xs => x :: setDedup (xs.filter (fun y => !(y == x)))
termination_by l.length
decreasing_by
  simp only [List.length_cons]
  have := List.length_filter_le (fun y => !(y == x)) xs
  omega

/-- Function `RefRegistry.extractRefs` from `src/playwriter/src/ref-registry.ts`:
collect all `/@e\d+/g` matches, strip the leading `@` (`m.slice(1)`), then
deduplicate via `new Set`. -/
def RefRegistry.extractRefs (code : String) : List String :=
  (setDedup ((extractRefsAux code.toList).map (fun m => m.drop 1))).map
    (fun m => String.mk m)

/-! ## The relay model

`src/cdp-relay.ts` is not part of the available sources (only its tests,
audit report and callers are), so the relay is modelled from the
specification, §§4–7.  Wall-clock time (deadlines, keepalive) is not
modelled; each definition below carries a doc comment naming the clause of
the spec it comes from. -/

/-- A CDP error object `{code, message}`. -/
structure CdpError where
  code : Int
  message : String
deriving DecidableEq, Repr

/-- Modelled from the spec: constant-time byte comparison of the configured
token against the supplied token (§4.A, audit report: `crypto.timingSafeEqual`).
All byte pairs are XOR-ed and OR-accumulated, so the work done is a function
of the lengths alone, never of the position of the first mismatch. -/
def constantTimeEqual (a b : String) : Bool :=
  (a.toList.length == b.toList.length) &&
    ((List.zipWith (fun c d => Nat.xor c.toNat d.toNat) a.toList b.toList).foldl
      Nat.lor 0 == 0)

/-- Outcome of an HTTP upgrade request before any WebSocket handshake:
either the connection is admitted or it is rejected with an HTTP status and
a logged reason category (§4.A). -/
inductive UpgradeDecision where
  | accept
  | reject (status : Nat) (category : String)
deriving DecidableEq, Repr

/-- Modelled from the spec (§4.A): the auth gate for `/cdp` upgrades.  With no
configured token (or the empty JavaScript-falsy token) every client is
accepted; with a configured token the query parameter must be present and
must match under `constantTimeEqual`, else HTTP 401 is returned before the
handshake. -/
def handleCdpUpgrade (configuredToken : Option String) (queryToken : Option String) :
    UpgradeDecision :=
  match configuredToken with
  | none => .accept
  | some t =>
    if t = "" then .accept
    else
      match queryToken with
      | none => .reject 401 "no-token"
      | some q => if constantTimeEqual t q then .accept else .reject 401 "bad-token"

/-- The characters of the required origin scheme `chrome-extension://`. -/
def extensionScheme : List Char := String.toList "chrome-extension://"

/-- Strip `p` from the front of a character list, or fail. -/
def stripPrefixChars (p : List Char) (l : List Char) : Option (List Char) :=
  match p, l with
  | [], rest => some rest
  | _ :: _, [] => none
  | a :: ps, c :: cs => if c = a then stripPrefixChars ps cs else none

/-- Modelled from the spec (§4.A) and the `validateExtensionOrigin` pattern in
`test/unit/message-parser.test.ts`: the `Origin` header must be present, begin
with `chrome-extension://`, and the remainder must be an allowlisted id. -/
def validateExtensionOrigin (allowlist : List String) (origin : Option String) : Bool :=
  match origin with
  | none => false
  | some s =>
    match stripPrefixChars extensionScheme s.toList with
    | none => false
    | some rest => allowlist.contains (String.mk rest)

/-- Modelled from the spec (§4.A): the origin gate for `/extension` upgrades;
a missing, malformed or unlisted origin is rejected with HTTP 403 before the
handshake. -/
def handleExtensionUpgrade (allowlist : List String) (origin : Option String) :
    UpgradeDecision :=
  if validateExtensionOrigin allowlist origin then .accept
  else .reject 403 "bad-origin"

/-- The single synthetic page target exposed by the extension (§3). -/
structure SyntheticTarget where
  targetId : String
  type : String
  title : String
  url : String
  attached : Bool
  browserContextId : String
deriving DecidableEq, Repr

/-- One (current or past) extension connection in the registry; `closedWith`
records the close code and reason once the connection is no longer open (§3). -/
structure ExtConn where
  connId : Nat
  extensionId : String
  closedWith : Option (Nat × String)
deriving DecidableEq, Repr

/-- An extension connection is open while no close has been recorded. -/
def ExtConn.isOpen (e : ExtConn) : Bool := e.closedWith.isNone

/-- A correlation record (§3, PendingCommand): relay-scoped id, originating
client, the original id used by the client, method name and optional session. -/
structure PendingCommand where
  relayId : Nat
  clientId : Nat
  originalId : Int
  method : String
  sessionId : Option String
deriving DecidableEq, Repr

/-- An inbound client CDP command frame `{id, method, sessionId?, params?}`;
the payload is kept opaque (§9). -/
structure CdpCommand where
  id : Int
  method : String
  sessionId : Option String
  params : Option String
deriving DecidableEq, Repr

/-- A command frame as rewritten for the extension: the relay-scoped id
replaces the client id (§4.F). -/
structure ExtCommand where
  id : Nat
  method : String
  sessionId : Option String
  params : Option String
deriving DecidableEq, Repr

/-- The synthetic result payloads the relay produces locally (§4.E). -/
inductive ResultPayload where
  | targetInfos (infos : List SyntheticTarget)
  | ok
  | attachedSession (sessionId : String)
  | version (protocolVersion product : String)
deriving DecidableEq, Repr

/-- A frame sent to a client: a result, an error reply, or an event (§6). -/
inductive ClientMsg where
  | result (id : Int) (payload : ResultPayload)
  | err (id : Int) (e : CdpError)
  | event (method : String) (sessionId : Option String) (params : Option String)
deriving DecidableEq, Repr

/-- An observable output of one relay step: a frame to a client, a frame to
the extension, or a close of one of the two connection kinds. -/
inductive Output where
  | toClient (c : Nat) (m : ClientMsg)
  | toExtension (m : ExtCommand)
  | closeClient (c : Nat) (code : Nat) (reason : String)
  | closeExtension (connId : Nat) (code : Nat) (reason : String)
deriving DecidableEq, Repr

/-- Modelled from the spec (§3, §4.B–§4.D): the logically-serialized relay
state — client set, extension registry, session ownership table, correlation
table, synthetic target and the dropped-event counter. -/
structure RelayState where
  clients : List Nat
  extensions : List ExtConn
  sessions : List (String × Nat)
  pending : List PendingCommand
  target : Option SyntheticTarget
  nextRelayId : Nat
  droppedEvents : Nat
  replacements : Nat
deriving DecidableEq, Repr

/-- Number of open extension connections in the registry. -/
def openExtCount (st : RelayState) : Nat :=
  (st.extensions.filter ExtConn.isOpen).length

/-- The authoritative (first open) extension connection, if any. -/
def currentExtension (st : RelayState) : Option ExtConn :=
  st.extensions.find? ExtConn.isOpen

/-- True when some extension connection is open. -/
def hasOpenExtension (st : RelayState) : Bool :=
  st.extensions.any ExtConn.isOpen

/-- Record the `code 1000 / reason "replaced"` close on a previously open
extension connection (§4.B). -/
def closeReplaced (e : ExtConn) : ExtConn :=
  if e.isOpen then { e with closedWith := some (1000, "replaced") } else e

/-- Modelled from the spec (§4.B): admitting a gate-approved extension
upgrade.  Every previously open extension is closed with code 1000 and reason
"replaced"; the replacement becomes the single open extension; all pending
commands are resolved with a "browser disconnected" error to their clients;
session bindings are cleared; clients are not touched. -/
def admitExtension (st : RelayState) (newConnId : Nat) (extId : String)
    (tgt : SyntheticTarget) : RelayState × List Output :=
  let olds := st.extensions.filter ExtConn.isOpen
  let st' : RelayState :=
    { st with
      extensions := st.extensions.map closeReplaced ++ [⟨newConnId, extId, none⟩]
      sessions := []
      pending := []
      target := some tgt
      replacements := st.replacements + (if olds.isEmpty then 0 else 1) }
  (st',
    olds.map (fun e => Output.closeExtension e.connId 1000 "replaced") ++
      st.pending.map (fun p =>
        Output.toClient p.clientId
          (.err p.originalId ⟨-32000, "browser disconnected"⟩)))

/-- The fixed set of methods the relay answers locally (§4.E). -/
def syntheticMethods : List String :=
  ["Browser.getVersion", "Target.setDiscoverTargets", "Target.getTargets",
   "Target.setAutoAttach", "Target.attachToTarget", "Target.detachFromTarget"]

/-- Owner lookup in the session table (§4.D); `find?` returns the first
binding, so a session has at most one owner by construction. -/
def lookupOwner (sessions : List (String × Nat)) (s : String) : Option Nat :=
  (sessions.find? (fun p => p.1 == s)).map Prod.snd

/-- Modelled from the spec (§4.E): the synthetic CDP responder.
`Target.getTargets` answers with the synthetic target when one is attached and
with the empty list otherwise; `Browser.getVersion` is constant.  The other
synthetic methods (attach/detach/auto-attach/discover) are acknowledged
locally; their session allocation is outside the claims checked here. -/
def handleSynthetic (st : RelayState) (c : Nat) (cmd : CdpCommand) :
    RelayState × List Output :=
  if cmd.method = "Target.getTargets" then
    (st, [Output.toClient c (.result cmd.id
      (.targetInfos (match st.target with | some t => [t] | none => [])))])
  else if cmd.method = "Browser.getVersion" then
    (st, [Output.toClient c (.result cmd.id (.version "1.3" "Chrome"))])
  else
    (st, [Output.toClient c (.result cmd.id .ok)])

/-- Modelled from the spec (§4.F): forwarding a non-synthetic command — a
relay id is allocated, a PendingCommand is stored and the rewritten frame is
sent to the extension. -/
def forwardCommand (st : RelayState) (c : Nat) (cmd : CdpCommand) :
    RelayState × List Output :=
  let rid := st.nextRelayId
  ({ st with
      nextRelayId := rid + 1
      pending := st.pending ++ [⟨rid, c, cmd.id, cmd.method, cmd.sessionId⟩] },
    [Output.toExtension ⟨rid, cmd.method, cmd.sessionId, cmd.params⟩])

/-- Modelled from the spec (§4.D–§4.F): dispatch of a well-formed client
command.  Synthetic methods are answered locally; with no open extension the
relay replies immediately with `-32000 "browser not connected"`; an outbound
command bearing a session the sender does not own is rejected locally with
`-32001 "session not owned"`; otherwise the command is forwarded. -/
def handleClientCommand (st : RelayState) (c : Nat) (cmd : CdpCommand) :
    RelayState × List Output :=
  if syntheticMethods.contains cmd.method then
    handleSynthetic st c cmd
  else if !hasOpenExtension st then
    (st, [Output.toClient c (.err cmd.id ⟨-32000, "browser not connected"⟩)])
  else
    match cmd.sessionId with
    | some s =>
      if lookupOwner st.sessions s = some c then forwardCommand st c cmd
      else (st, [Output.toClient c (.err cmd.id ⟨-32001, "session not owned"⟩)])
    | none => forwardCommand st c cmd

/-- Modelled from the spec (§4.D): an inbound `forwardCDPEvent` from the
extension.  An event bearing a session id goes only to the owning client;
an unowned session event is dropped and counted; a session-less event is
broadcast to every client. -/
def handleExtensionEvent (st : RelayState) (method : String)
    (sessionId : Option String) (params : Option String) :
    RelayState × List Output :=
  match sessionId with
  | some s =>
    match lookupOwner st.sessions s with
    | some c => (st, [Output.toClient c (.event method (some s) params)])
    | none => ({ st with droppedEvents := st.droppedEvents + 1 }, [])
  | none =>
    (st, st.clients.map (fun c => Output.toClient c (.event method none params)))

/-- The parse outcome of one inbound WebSocket frame (§7, kind 2): a
well-formed command, a protocol-error text frame (with the id, when one was
parseable), or a binary frame. -/
inductive ParsedFrame where
  | valid (cmd : CdpCommand)
  | invalid (parsedId : Option Int)
  | binaryFrame
deriving DecidableEq, Repr

/-- Record a close on the extension connection with the given conn id. -/
def closeExtConnWith (connId code : Nat) (reason : String) (e : ExtConn) : ExtConn :=
  if e.connId == connId && e.isOpen then { e with closedWith := some (code, reason) }
  else e

/-- Modelled from the spec (§7, kind 2): a protocol error on the extension
connection (non-JSON, missing fields, binary) closes that connection with
code 1002; well-formed frames pass through to the response/event handlers. -/
def handleExtensionFrame (st : RelayState) (connId : Nat) (f : ParsedFrame) :
    RelayState × List Output :=
  match f with
  | .valid _ => (st, [])
  | .invalid _ =>
    ({ st with extensions := st.extensions.map (closeExtConnWith connId 1002 "protocol error") },
      [Output.closeExtension connId 1002 "protocol error"])
  | .binaryFrame =>
    ({ st with extensions := st.extensions.map (closeExtConnWith connId 1002 "protocol error") },
      [Output.closeExtension connId 1002 "protocol error"])

/-- Modelled from the spec (§7, kind 2): a protocol error on a client
connection is dropped; a best-effort CDP error reply is sent when an id was
parseable; the connection stays open and well-formed commands are
dispatched. -/
def handleClientFrame (st : RelayState) (c : Nat) (f : ParsedFrame) :
    RelayState × List Output :=
  match f with
  | .valid cmd => handleClientCommand st c cmd
  | .invalid (some i) =>
    (st, [Output.toClient c (.err i ⟨-32600, "invalid message"⟩)])
  | .invalid none => (st, [])
  | .binaryFrame => (st, [])

/-! ## Helper lemmas -/

theorem natLorEqZero {a b : Nat} (h : a ||| b = 0) : a = 0 ∧ b = 0 := by
  constructor
  · apply Nat.zero_of_testBit_eq_false
    intro i
    have h1 : (a ||| b).testBit i = false := by rw [h]; exact Nat.zero_testBit i
    rw [Nat.testBit_lor] at h1
    exact (Bool.or_eq_false_iff.mp h1).1
  · apply Nat.zero_of_testBit_eq_false
    intro i
    have h1 : (a ||| b).testBit i = false := by rw [h]; exact Nat.zero_testBit i
    rw [Nat.testBit_lor] at h1
    exact (Bool.or_eq_false_iff.mp h1).2

theorem foldl_lor_eq_zero (l : List Nat) (acc : Nat) :
    l.foldl Nat.lor acc = 0 ↔ acc = 0 ∧ ∀ x ∈ l, x = 0 := by
  induction l generalizing acc with
  | nil => simp
  | cons x xs ih =>
    simp only [List.foldl_cons, ih, List.mem_cons]
    constructor
    · rintro ⟨h1, h2⟩
      obtain ⟨ha, hx⟩ := natLorEqZero h1
      exact ⟨ha, fun y hy => hy.elim (fun hh => hh ▸ hx) (h2 y)⟩
    · rintro ⟨rfl, h2⟩
      refine ⟨?_, fun y hy => h2 y (.inr hy)⟩
      rw [h2 x (.inl rfl)]
      rfl

theorem charEq_of_toNat_eq {c d : Char} (h : c.toNat = d.toNat) : c = d := by
  apply Char.eq_of_val_eq
  exact UInt32.toNat.inj h

theorem zipXor_eq_zero_iff :
    ∀ (l₁ l₂ : List Char), l₁.length = l₂.length →
      ((∀ x ∈ List.zipWith (fun c d => Nat.xor c.toNat d.toNat) l₁ l₂, x = 0) ↔ l₁ = l₂)
  | [], [] => by simp
  | [], _ :: _ => by intro h; simp at h
  | _ :: _, [] => by intro h; simp at h
  | c :: cs, d :: ds => by
    intro hlen
    simp only [List.length_cons, Nat.succ.injEq] at hlen
    simp only [List.zipWith_cons_cons, List.mem_cons, List.cons.injEq]
    constructor
    · intro h
      have hcd : c = d :=
        charEq_of_toNat_eq (Nat.xor_eq_zero.mp (h _ (.inl rfl)))
      exact ⟨hcd, (zipXor_eq_zero_iff cs ds hlen).mp (fun x hx => h x (.inr hx))⟩
    · rintro ⟨rfl, rfl⟩
      intro x hx
      rcases hx with hx | hx
      · rw [hx]; exact Nat.xor_self _
      · exact ((zipXor_eq_zero_iff cs cs rfl).mpr rfl) x hx

theorem stringEq_of_toList {a b : String} (h : a.toList = b.toList) : a = b := by
  cases a
  cases b
  exact congrArg String.mk h

theorem constantTimeEqual_iff (a b : String) : constantTimeEqual a b = true ↔ a = b := by
  unfold constantTimeEqual
  rw [Bool.and_eq_true, beq_iff_eq, beq_iff_eq]
  constructor
  · rintro ⟨hlen, hfold⟩
    have hall := ((foldl_lor_eq_zero _ 0).mp hfold).2
    exact stringEq_of_toList ((zipXor_eq_zero_iff a.toList b.toList hlen).mp hall)
  · rintro rfl
    refine ⟨rfl, (foldl_lor_eq_zero _ 0).mpr ⟨rfl, ?_⟩⟩
    exact (zipXor_eq_zero_iff a.toList a.toList rfl).mpr rfl

theorem stripPrefixChars_eq_some (p : List Char) :
    ∀ (l r : List Char), stripPrefixChars p l = some r ↔ l = p ++ r := by
  induction p with
  | nil =>
    intro l r
    simp [stripPrefixChars, eq_comm]
  | cons a ps ih =>
    intro l r
    cases l with
    | nil => simp [stripPrefixChars]
    | cons c cs =>
      simp only [stripPrefixChars, List.cons_append, List.cons.injEq]
      by_cases hca : c = a
      · subst hca
        simp [ih]
      · simp [hca]

theorem find?_append_all_false {α : Type} (p : α → Bool) (l₁ l₂ : List α)
    (h : ∀ x ∈ l₁, p x = false) : List.find? p (l₁ ++ l₂) = List.find? p l₂ := by
  induction l₁ with
  | nil => rfl
  | cons y ys ih =>
    simp only [List.cons_append, List.find?_cons]
    rw [h y (by simp)]
    exact ih (fun a ha => h a (by simp [ha]))

theorem closeReplaced_not_open (e : ExtConn) : (closeReplaced e).isOpen = false := by
  rcases e with ⟨ci, xi, cw⟩
  cases cw <;> simp [closeReplaced, ExtConn.isOpen]

theorem validateOrigin_scheme_append (allowlist : List String) (extId : String) :
    validateExtensionOrigin allowlist (some ("chrome-extension://" ++ extId)) =
      allowlist.contains extId := by
  have hstrip : stripPrefixChars extensionScheme
      ("chrome-extension://" ++ extId).toList = some extId.toList := by
    rw [stripPrefixChars_eq_some]
    show ("chrome-extension://" ++ extId).data = extensionScheme ++ extId.data
    rw [String.data_append]
    rfl
  simp only [validateExtensionOrigin]
  rw [hstrip]
  rfl

/-! ## Claim theorems -/

/-- Claim C1: with a non-empty configured token, a `/cdp` upgrade whose token
query parameter is missing or differs from the configured token is rejected
with HTTP 401 before the handshake; with no configured token every client is
accepted; and the token comparison is the constant-time byte comparison,
which accepts exactly equal strings. -/
theorem cdp_auth_gate (T : String) (q : Option String) (hT : T ≠ "") :
    (q = none → handleCdpUpgrade (some T) q = .reject 401 "no-token") ∧
    (∀ s, q = some s → s ≠ T → handleCdpUpgrade (some T) q = .reject 401 "bad-token") ∧
    (∀ p : Option String, handleCdpUpgrade none p = .accept) ∧
    (∀ a b : String, constantTimeEqual a b = true ↔ a = b) := by
  refine ⟨?_, ?_, fun _ => rfl, constantTimeEqual_iff⟩
  · rintro rfl
    simp [handleCdpUpgrade, hT]
  · rintro s rfl hne
    have hct : constantTimeEqual T s = false := by
      rw [← Bool.not_eq_true, constantTimeEqual_iff]
      exact fun hh => hne hh.symm
    simp [handleCdpUpgrade, hT, hct]

/-- Witness for C1 at the tokens of the integration test
(`secret-token` vs `wrong-token`). -/
theorem cdp_auth_gate_witness :
    handleCdpUpgrade (some "secret-token") (some "wrong-token") =
      .reject 401 "bad-token" :=
  (cdp_auth_gate "secret-token" (some "wrong-token") (by decide)).2.1
    "wrong-token" rfl (by decide)

/-- Claim C3: an `/extension` upgrade with a missing origin, an origin that
does not begin with `chrome-extension://`, or a non-allowlisted extension id
is rejected with HTTP 403 before the handshake; `chrome-extension://` plus an
allowlisted id is accepted. -/
theorem extension_origin_gate (allowlist : List String) (s extId : String) :
    (handleExtensionUpgrade allowlist none = .reject 403 "bad-origin") ∧
    ((∀ r : List Char, s.toList ≠ extensionScheme ++ r) →
      handleExtensionUpgrade allowlist (some s) = .reject 403 "bad-origin") ∧
    (allowlist.contains extId = false →
      handleExtensionUpgrade allowlist (some ("chrome-extension://" ++ extId)) =
        .reject 403 "bad-origin") ∧
    (allowlist.contains extId = true →
      handleExtensionUpgrade allowlist (some ("chrome-extension://" ++ extId)) =
        .accept) := by
  have hval := validateOrigin_scheme_append allowlist extId
  refine ⟨rfl, ?_, ?_, ?_⟩
  · intro hno
    have h2 : stripPrefixChars extensionScheme s.toList = none := by
      cases hsp : stripPrefixChars extensionScheme s.toList with
      | none => rfl
      | some r => exact absurd ((stripPrefixChars_eq_some _ _ _).mp hsp) (hno r)
    unfold handleExtensionUpgrade
    simp only [validateExtensionOrigin, h2]
    rfl
  · intro hmem
    unfold handleExtensionUpgrade
    rw [hval, hmem]
    rfl
  · intro hmem
    unfold handleExtensionUpgrade
    rw [hval, hmem]
    rfl

/-- Witness for C3 at the production extension id of the test suite. -/
theorem extension_origin_gate_witness :
    handleExtensionUpgrade ["jfeammnjpkecdekppnclgkkffahnhfhe"]
        (some ("chrome-extension://" ++ "jfeammnjpkecdekppnclgkkffahnhfhe")) =
      .accept ∧
    handleExtensionUpgrade ["jfeammnjpkecdekppnclgkkffahnhfhe"]
        (some ("chrome-extension://" ++ "aaaaaaaaaaaaaaaaaaaaaaaaaaaaaaaa")) =
      .reject 403 "bad-origin" :=
  ⟨(extension_origin_gate ["jfeammnjpkecdekppnclgkkffahnhfhe"] ""
      "jfeammnjpkecdekppnclgkkffahnhfhe").2.2.2 (by decide),
   (extension_origin_gate ["jfeammnjpkecdekppnclgkkffahnhfhe"] ""
      "aaaaaaaaaaaaaaaaaaaaaaaaaaaaaaaa").2.2.1 (by decide)⟩

/-- Claim C2: admitting a new extension leaves exactly one open extension
connection (the new one, which becomes authoritative), closes every
previously open extension with code 1000 and reason "replaced", keeps the
client set untouched, and emits no client close. -/
theorem extension_replacement (st : RelayState) (n : Nat) (x : String)
    (t : SyntheticTarget) (hinv : openExtCount st ≤ 1) :
    openExtCount (admitExtension st n x t).1 = 1 ∧
    currentExtension (admitExtension st n x t).1 = some (ExtConn.mk n x none) ∧
    (∀ e ∈ st.extensions, e.isOpen = true →
      Output.closeExtension e.connId 1000 "replaced" ∈ (admitExtension st n x t).2) ∧
    (admitExtension st n x t).1.clients = st.clients ∧
    (∀ o ∈ (admitExtension st n x t).2, ∀ cc code r, o ≠ Output.closeClient cc code r) := by
  have hmapped : ∀ e ∈ st.extensions.map closeReplaced, e.isOpen = false := by
    intro e he
    rcases List.mem_map.mp he with ⟨e0, -, rfl⟩
    exact closeReplaced_not_open e0
  refine ⟨?_, ?_, ?_, rfl, ?_⟩
  · show ((st.extensions.map closeReplaced ++ [ExtConn.mk n x none]).filter ExtConn.isOpen).length = 1
    rw [List.filter_append]
    have h1 : (st.extensions.map closeReplaced).filter ExtConn.isOpen = [] := by
      rw [List.filter_eq_nil_iff]
      intro a ha
      simp [hmapped a ha]
    rw [h1]
    rfl
  · show List.find? ExtConn.isOpen (st.extensions.map closeReplaced ++ [ExtConn.mk n x none]) =
      some (ExtConn.mk n x none)
    rw [find?_append_all_false ExtConn.isOpen _ _ hmapped]
    rfl
  · intro e he hopen
    apply List.mem_append_left
    apply List.mem_map.mpr
    exact ⟨e, List.mem_filter.mpr ⟨he, hopen⟩, rfl⟩
  · intro o ho cc code r
    rcases List.mem_append.mp ho with hl | hr
    · rcases List.mem_map.mp hl with ⟨e0, -, rfl⟩
      simp
    · rcases List.mem_map.mp hr with ⟨p0, -, rfl⟩
      simp

/-- A concrete pre-state for the replacement witness: one client, one open
extension (conn 5), one session, one pending command. -/
def stWithExt : RelayState :=
  { clients := [1]
    extensions := [⟨5, "jfeammnjpkecdekppnclgkkffahnhfhe", none⟩]
    sessions := [("1a2b", 1)]
    pending := [⟨10, 1, 2, "Page.navigate", none⟩]
    target := some ⟨"T1", "page", "", "about:blank", true, "ctx1"⟩
    nextRelayId := 11
    droppedEvents := 0
    replacements := 0 }

/-- Witness for C2: replacing the open extension conn 5 emits its
1000/"replaced" close and leaves the new conn 6 authoritative. -/
theorem extension_replacement_witness :
    Output.closeExtension 5 1000 "replaced" ∈
      (admitExtension stWithExt 6 "jfeammnjpkecdekppnclgkkffahnhfhe"
        ⟨"T2", "page", "", "about:blank", true, "ctx2"⟩).2 ∧
    currentExtension (admitExtension stWithExt 6 "jfeammnjpkecdekppnclgkkffahnhfhe"
        ⟨"T2", "page", "", "about:blank", true, "ctx2"⟩).1 =
      some ⟨6, "jfeammnjpkecdekppnclgkkffahnhfhe", none⟩ := by
  have h := extension_replacement stWithExt 6 "jfeammnjpkecdekppnclgkkffahnhfhe"
    ⟨"T2", "page", "", "about:blank", true, "ctx2"⟩ (by decide)
  exact ⟨h.2.2.1 ⟨5, "jfeammnjpkecdekppnclgkkffahnhfhe", none⟩ (by decide) (by decide),
    h.2.1⟩

/-- Claim C4: a client command with a non-synthetic method arriving while no
extension connection is open is answered immediately, without any forwarding,
by an error frame carrying the original client id and
`{code: -32000, message: "browser not connected"}`. -/
theorem no_extension_error (st : RelayState) (c : Nat) (cmd : CdpCommand)
    (hm : syntheticMethods.contains cmd.method = false)
    (hx : hasOpenExtension st = false) :
    handleClientCommand st c cmd =
      (st, [Output.toClient c (.err cmd.id ⟨-32000, "browser not connected"⟩)]) := by
  unfold handleClientCommand
  rw [hm, hx]
  rfl

/-- A concrete pre-state with one client and no extension. -/
def stNoExt : RelayState :=
  { clients := [1]
    extensions := []
    sessions := []
    pending := []
    target := none
    nextRelayId := 1
    droppedEvents := 0
    replacements := 0 }

/-- Witness for C4 at the literal frame of spec scenario 7
(`{"id":4,"method":"Page.navigate"}` with no extension connected). -/
theorem no_extension_error_witness :
    handleClientCommand stNoExt 1 ⟨4, "Page.navigate", none, none⟩ =
      (stNoExt, [Output.toClient 1 (.err 4 ⟨-32000, "browser not connected"⟩)]) :=
  no_extension_error stNoExt 1 ⟨4, "Page.navigate", none, none⟩ (by decide) (by decide)

/-- The coupling of the synthetic target to the extension connection (§3:
created on the extension handshake, removed on extension disconnect). -/
def targetInvariant (st : RelayState) : Prop :=
  st.target.isSome = hasOpenExtension st

/-- Claim C5: `Target.getTargets` is answered locally echoing the id of the
request: with no open extension (and the target coupling invariant) the result is
`{targetInfos: []}`; with an announced synthetic target the result is the
one-element list holding it. -/
theorem getTargets_local (st : RelayState) (c : Nat) (idv : Int)
    (sid p : Option String) (t : SyntheticTarget) :
    (targetInvariant st → hasOpenExtension st = false →
      handleClientCommand st c ⟨idv, "Target.getTargets", sid, p⟩ =
        (st, [Output.toClient c (.result idv (.targetInfos []))])) ∧
    (st.target = some t →
      handleClientCommand st c ⟨idv, "Target.getTargets", sid, p⟩ =
        (st, [Output.toClient c (.result idv (.targetInfos [t]))])) := by
  constructor
  · intro hti hx
    have hnone : st.target = none := by
      unfold targetInvariant at hti
      rw [hx] at hti
      exact Option.not_isSome_iff_eq_none.mp (by simp [hti])
    unfold handleClientCommand
    rw [show syntheticMethods.contains "Target.getTargets" = true from rfl]
    unfold handleSynthetic
    rw [hnone]
    rfl
  · intro hsome
    unfold handleClientCommand
    rw [show syntheticMethods.contains "Target.getTargets" = true from rfl]
    unfold handleSynthetic
    rw [hsome]
    rfl

/-- Witness for C5 at spec scenario 1 (`{"id":1,"method":"Target.getTargets"}`
with no extension attached). -/
theorem getTargets_local_witness :
    handleClientCommand stNoExt 1 ⟨1, "Target.getTargets", none, none⟩ =
      (stNoExt, [Output.toClient 1 (.result 1 (.targetInfos []))]) :=
  (getTargets_local stNoExt 1 1 none none
      ⟨"T1", "page", "", "about:blank", true, "ctx1"⟩).1 (by rfl) (by decide)

theorem handleSynthetic_no_forward (st : RelayState) (c : Nat) (cmd : CdpCommand) :
    ∀ em, Output.toExtension em ∉ (handleSynthetic st c cmd).2 := by
  intro em
  unfold handleSynthetic
  by_cases h1 : cmd.method = "Target.getTargets"
  · simp [h1]
  · by_cases h2 : cmd.method = "Browser.getVersion" <;> simp [h1, h2]

/-- Claim C6: an extension event bearing session id S is delivered to the
owner of S and to nobody else; an event on an unowned session is dropped and
counted; a client command bearing a session the sender does not own is never
forwarded to the extension, and — on the forwarding path, with an extension
open — is rejected locally with `{code: -32001, message: "session not owned"}`. -/
theorem session_ownership (st : RelayState) (m s : String) (p : Option String)
    (c o : Nat) (cmd : CdpCommand) :
    (lookupOwner st.sessions s = some o →
      handleExtensionEvent st m (some s) p =
        (st, [Output.toClient o (.event m (some s) p)])) ∧
    (lookupOwner st.sessions s = none →
      handleExtensionEvent st m (some s) p =
        ({ st with droppedEvents := st.droppedEvents + 1 }, [])) ∧
    (cmd.sessionId = some s → lookupOwner st.sessions s ≠ some c →
      ∀ em, Output.toExtension em ∉ (handleClientCommand st c cmd).2) ∧
    (cmd.sessionId = some s → lookupOwner st.sessions s ≠ some c →
      syntheticMethods.contains cmd.method = false → hasOpenExtension st = true →
      handleClientCommand st c cmd =
        (st, [Output.toClient c (.err cmd.id ⟨-32001, "session not owned"⟩)])) := by
  refine ⟨?_, ?_, ?_, ?_⟩
  · intro ho
    simp [handleExtensionEvent, ho]
  · intro ho
    simp [handleExtensionEvent, ho]
  · intro hs hno em
    unfold handleClientCommand
    by_cases hsyn : syntheticMethods.contains cmd.method = true
    · rw [hsyn]
      exact handleSynthetic_no_forward st c cmd em
    · rw [Bool.not_eq_true] at hsyn
      rw [hsyn]
      by_cases hx : hasOpenExtension st = true
      · simp only [hx, Bool.not_true, Bool.false_eq_true, if_false]
        simp [hs, hno]
      · rw [Bool.not_eq_true] at hx
        simp only [hx, Bool.not_false, if_true]
        simp
  · intro hs hno hsyn hx
    unfold handleClientCommand
    rw [hsyn, hx]
    simp only [Bool.not_true, Bool.false_eq_true, if_false]
    simp [hs, hno]

/-- Witness for C6: in `stWithExt` session "1a2b" is owned by client 1, so an
event on it goes only to client 1, and a command from client 2 bearing it is
rejected with -32001. -/
theorem session_ownership_witness :
    handleExtensionEvent stWithExt "Page.loadEventFired" (some "1a2b") none =
      (stWithExt, [Output.toClient 1 (.event "Page.loadEventFired" (some "1a2b") none)]) ∧
    handleClientCommand stWithExt 2 ⟨3, "Runtime.evaluate", some "1a2b", none⟩ =
      (stWithExt, [Output.toClient 2 (.err 3 ⟨-32001, "session not owned"⟩)]) := by
  have h := session_ownership stWithExt "Page.loadEventFired" "1a2b" none 2 1
    ⟨3, "Runtime.evaluate", some "1a2b", none⟩
  exact ⟨h.1 (by decide), h.2.2.2 rfl (by decide) (by decide) (by decide)⟩

/-- Claim C7: a protocol-error frame (unparseable text or binary) on the
extension connection closes that connection with code 1002, while on a client
connection the state is unchanged (the client stays open), the frame is
dropped, and a best-effort error reply is sent when an id was parseable. -/
theorem protocol_error_frames (st : RelayState) (connId : Nat) (o : Option Int)
    (c : Nat) (i : Int) :
    ((handleExtensionFrame st connId (.invalid o)).2 =
      [Output.closeExtension connId 1002 "protocol error"]) ∧
    ((handleExtensionFrame st connId .binaryFrame).2 =
      [Output.closeExtension connId 1002 "protocol error"]) ∧
    (∀ e ∈ (handleExtensionFrame st connId (.invalid o)).1.extensions,
      e.connId = connId → e.isOpen = false) ∧
    (handleClientFrame st c (.invalid (some i)) =
      (st, [Output.toClient c (.err i ⟨-32600, "invalid message"⟩)])) ∧
    (handleClientFrame st c (.invalid none) = (st, [])) ∧
    (handleClientFrame st c .binaryFrame = (st, [])) := by
  refine ⟨rfl, rfl, ?_, rfl, rfl, rfl⟩
  intro e he hid
  have hmem : e ∈ st.extensions.map (closeExtConnWith connId 1002 "protocol error") := he
  rcases List.mem_map.mp hmem with ⟨e0, -, rfl⟩
  unfold closeExtConnWith at hid ⊢
  by_cases hb : (e0.connId == connId && e0.isOpen) = true
  · rw [if_pos hb]
    rfl
  · rw [if_neg hb] at hid ⊢
    rcases Bool.and_eq_false_iff.mp (Bool.not_eq_true _ ▸ hb) with hn | hn
    · exact absurd hid (by simpa [beq_iff_eq] using hn)
    · exact hn

/-- Witness for C7: an invalid frame from extension conn 5 of `stWithExt`
produces the 1002 close and leaves no open extension with that id. -/
theorem protocol_error_frames_witness :
    ((handleExtensionFrame stWithExt 5 (.invalid none)).2 =
      [Output.closeExtension 5 1002 "protocol error"]) ∧
    ExtConn.isOpen ⟨5, "jfeammnjpkecdekppnclgkkffahnhfhe",
        some (1002, "protocol error")⟩ = false ∧
    (handleClientFrame stWithExt 1 (.invalid (some 9)) =
      (stWithExt, [Output.toClient 1 (.err 9 ⟨-32600, "invalid message"⟩)])) := by
  have h := protocol_error_frames stWithExt 5 none 1 9
  refine ⟨h.1, ?_, h.2.2.2.1⟩
  exact h.2.2.1 ⟨5, "jfeammnjpkecdekppnclgkkffahnhfhe", some (1002, "protocol error")⟩
    (by decide) (by decide)

/-- Claim C8 counterexample: the URL built by `getCdpUrl` is not
`ws://host:port/cdp` with an optional token query — the source inserts a
random connection-id path segment after `/cdp/`, so at the default options
and the concrete id `abc` the produced URL differs from the claimed form,
with and without a token. -/
theorem getCdpUrl_claim_counterexample :
    getCdpUrl "abc" ≠ "ws://127.0.0.1:19988/cdp" ∧
    getCdpUrl "abc" 19988 "127.0.0.1" (some "secret-token") ≠
      "ws://127.0.0.1:19988/cdp?token=secret-token" := by
  constructor <;> decide

/-- Claim C8 (amended): the URL built by `getCdpUrl` has the form
`ws://host:port/cdp/<id>` — with the fresh connection id as an extra path
segment — and the configured token, when present and non-empty, appended as
the `token` query parameter; the defaults are host `127.0.0.1` and port
`19988`. -/
theorem getCdpUrl_shape (id host t : String) (port : Nat) (ht : t ≠ "") :
    getCdpUrl id = "ws://127.0.0.1:19988/cdp/" ++ id ∧
    getCdpUrl id port host none =
      "ws://" ++ host ++ ":" ++ toString port ++ "/cdp/" ++ id ∧
    getCdpUrl id port host (some t) =
      "ws://" ++ host ++ ":" ++ toString port ++ "/cdp/" ++ id ++ "?token=" ++ t := by
  refine ⟨?_, ?_, ?_⟩
  · have h : ("ws://" ++ "127.0.0.1" ++ ":" ++ toString (19988 : Nat) ++ "/cdp/" : String) =
        "ws://127.0.0.1:19988/cdp/" := by decide
    show "ws://" ++ "127.0.0.1" ++ ":" ++ toString (19988 : Nat) ++ "/cdp/" ++ id ++ "" =
      "ws://127.0.0.1:19988/cdp/" ++ id
    rw [String.append_empty, h]
  · show "ws://" ++ host ++ ":" ++ toString port ++ "/cdp/" ++ id ++ "" = _
    rw [String.append_empty]
  · simp only [getCdpUrl, if_neg ht]
    simp [String.append_assoc]

/-- Witness for C8 (amended) at concrete options. -/
theorem getCdpUrl_shape_witness :
    getCdpUrl "abc" 19998 "localhost" (some "secret-token") =
      "ws://localhost:19998/cdp/abc?token=secret-token" := by
  have h := (getCdpUrl_shape "abc" "localhost" "secret-token" 19998 (by decide)).2.2
  rw [h]
  rfl

/-! ## Exactness of resolveShortRefs (C9) -/

theorem isQuoteChar_not_digit {q : Char} (h : isQuoteChar q = true) :
    q.isDigit = false := by
  unfold isQuoteChar at h
  rcases Bool.or_eq_true_iff.mp h with h1 | h2
  · rcases Bool.or_eq_true_iff.mp h1 with h3 | h3 <;>
      · rw [beq_iff_eq] at h3
        subst h3
        decide
  · rw [beq_iff_eq] at h2
    subst h2
    decide

theorem takeWhile_digits_append (ds b : List Char) (q : Char)
    (hds : ∀ d ∈ ds, d.isDigit = true) (hq : q.isDigit = false) :
    (ds ++ q :: b).takeWhile Char.isDigit = ds ∧
      (ds ++ q :: b).dropWhile Char.isDigit = q :: b := by
  induction ds with
  | nil =>
    simp [List.takeWhile_cons, List.dropWhile_cons, hq]
  | cons d ds ih =>
    have hd : d.isDigit = true := hds d (by simp)
    have ih2 := ih (fun x hx => hds x (by simp [hx]))
    simp [List.takeWhile_cons, List.dropWhile_cons, hd, ih2.1, ih2.2]

theorem tryRefMatch_head (q : Char) (ds b : List Char)
    (hds : ds ≠ []) (hdig : ∀ d ∈ ds, d.isDigit = true) (hq : q.isDigit = false) :
    tryRefMatch q ('@' :: 'e' :: (ds ++ q :: b)) = some (ds, b) := by
  have htw := takeWhile_digits_append ds b q hdig hq
  simp only [tryRefMatch]
  rw [htw.2]
  simp [htw.1, hds]

theorem tryRefMatch_some_shape {q : Char} {cs ds rest2 : List Char}
    (h : tryRefMatch q cs = some (ds, rest2)) :
    cs = '@' :: 'e' :: (ds ++ q :: rest2) ∧ ds ≠ [] ∧
      ∀ d ∈ ds, d.isDigit = true := by
  match cs with
  | [] => simp [tryRefMatch] at h
  | [a] => simp [tryRefMatch] at h
  | a :: b :: rest =>
    simp only [tryRefMatch] at h
    split at h
    case isTrue hab =>
      obtain ⟨rfl, rfl⟩ := hab
      split at h
      case h_1 c rest2' heq =>
        split at h
        case isTrue hcond =>
          obtain ⟨hne, rfl⟩ := hcond
          simp only [Option.some.injEq, Prod.mk.injEq] at h
          obtain ⟨h1, h2⟩ := h
          subst h1
          subst h2
          refine ⟨?_, hne, fun d hd => List.mem_takeWhile_imp hd⟩
          have h3 := List.takeWhile_append_dropWhile (p := Char.isDigit) (l := rest)
          rw [heq] at h3
          exact congrArg (fun t => '@' :: 'e' :: t) h3.symm
        case isFalse => exact absurd h (by simp)
      case h_2 => exact absurd h (by simp)
    case isFalse => exact absurd h (by simp)

theorem resolveAux_nil : resolveShortRefsAux [] = [] := by
  simp [resolveShortRefsAux]

theorem resolveAux_cons_quote_match {c : Char} {cs ds rest2 : List Char}
    (hq : isQuoteChar c = true) (hm : tryRefMatch c cs = some (ds, rest2)) :
    resolveShortRefsAux (c :: cs) =
      c :: (String.toList "aria-ref=e" ++ ds ++ c :: resolveShortRefsAux rest2) := by
  simp only [resolveShortRefsAux, hq, if_true]
  split
  case h_1 ds2 rest2b heq =>
    rw [hm] at heq
    simp only [Option.some.injEq, Prod.mk.injEq] at heq
    obtain ⟨rfl, rfl⟩ := heq
    rfl
  case h_2 heq =>
    rw [hm] at heq
    exact absurd heq (by simp)

theorem resolveAux_cons_quote_none {c : Char} {cs : List Char}
    (hq : isQuoteChar c = true) (hm : tryRefMatch c cs = none) :
    resolveShortRefsAux (c :: cs) = c :: resolveShortRefsAux cs := by
  simp only [resolveShortRefsAux, hq, if_true]
  split
  case h_1 ds2 rest2b heq =>
    rw [hm] at heq
    exact absurd heq (by simp)
  case h_2 heq => rfl

theorem resolveAux_cons_notquote {c : Char} {cs : List Char}
    (hq : isQuoteChar c = false) :
    resolveShortRefsAux (c :: cs) = c :: resolveShortRefsAux cs := by
  simp only [resolveShortRefsAux]
  rw [if_neg (by simp [hq])]

/-- The claim-side characterization of a rewritable occurrence: somewhere in
the string, a quote, `@e`, a non-empty digit run and the same quote again. -/
def QuotedRefOcc (l : List Char) : Prop :=
  ∃ (a ds b : List Char) (q : Char),
    isQuoteChar q = true ∧ ds ≠ [] ∧ (∀ d ∈ ds, d.isDigit = true) ∧
    l = a ++ q :: '@' :: 'e' :: (ds ++ q :: b)

theorem quotedRefOcc_cons {c : Char} {cs : List Char} :
    QuotedRefOcc (c :: cs) ↔
      (∃ ds b, isQuoteChar c = true ∧ ds ≠ [] ∧ (∀ d ∈ ds, d.isDigit = true) ∧
        cs = '@' :: 'e' :: (ds ++ c :: b)) ∨ QuotedRefOcc cs := by
  constructor
  · rintro ⟨a, ds, b, q, hq, hds, hdig, heq⟩
    cases a with
    | nil =>
      simp only [List.nil_append, List.cons.injEq] at heq
      obtain ⟨rfl, rfl⟩ := heq
      exact .inl ⟨ds, b, hq, hds, hdig, rfl⟩
    | cons a1 a2 =>
      simp only [List.cons_append, List.cons.injEq] at heq
      obtain ⟨rfl, rfl⟩ := heq
      exact .inr ⟨a2, ds, b, q, hq, hds, hdig, rfl⟩
  · rintro (⟨ds, b, hq, hds, hdig, heq⟩ | ⟨a, ds, b, q, hq, hds, hdig, heq⟩)
    · exact ⟨[], ds, b, c, hq, hds, hdig, by rw [heq]; rfl⟩
    · exact ⟨c :: a, ds, b, q, hq, hds, hdig, by rw [heq]; rfl⟩

theorem length_le_resolveAux (l : List Char) :
    l.length ≤ (resolveShortRefsAux l).length := by
  induction l using resolveShortRefsAux.induct with
  | case1 => rw [resolveAux_nil]
  | case2 c cs hq ds rest2 hmatch ih =>
    obtain ⟨hshape, -, -⟩ := tryRefMatch_some_shape hmatch
    rw [resolveAux_cons_quote_match hq hmatch]
    subst hshape
    have h10 : (String.toList "aria-ref=e").length = 10 := by decide
    simp only [List.length_cons, List.length_append, h10]
    omega
  | case3 c cs hq hmatch ih =>
    rw [resolveAux_cons_quote_none hq hmatch]
    simp only [List.length_cons]
    omega
  | case4 c cs hq ih =>
    rw [resolveAux_cons_notquote (by simpa using hq)]
    simp only [List.length_cons]
    omega
theorem resolveAux_eq_self {l : List Char} (h : ¬ QuotedRefOcc l) :
    resolveShortRefsAux l = l := by
  induction l using resolveShortRefsAux.induct with
  | case1 => exact resolveAux_nil
  | case2 c cs hq ds rest2 hmatch ih =>
    exfalso
    obtain ⟨hshape, hne, hdig⟩ := tryRefMatch_some_shape hmatch
    exact h (quotedRefOcc_cons.mpr (.inl ⟨ds, rest2, hq, hne, hdig, hshape⟩))
  | case3 c cs hq hmatch ih =>
    have hcs : ¬ QuotedRefOcc cs := fun hocc =>
      h (quotedRefOcc_cons.mpr (.inr hocc))
    rw [resolveAux_cons_quote_none hq hmatch, ih hcs]
  | case4 c cs hq ih =>
    have hcs : ¬ QuotedRefOcc cs := fun hocc =>
      h (quotedRefOcc_cons.mpr (.inr hocc))
    rw [resolveAux_cons_notquote (by simpa using hq), ih hcs]
theorem length_lt_resolveAux {l : List Char} (h : QuotedRefOcc l) :
    l.length < (resolveShortRefsAux l).length := by
  induction l using resolveShortRefsAux.induct with
  | case1 =>
    exfalso
    obtain ⟨a, ds, b, q, -, -, -, heq⟩ := h
    exact absurd heq (by simp)
  | case2 c cs hq ds rest2 hmatch ih =>
    obtain ⟨hshape, -, -⟩ := tryRefMatch_some_shape hmatch
    have hle := length_le_resolveAux rest2
    rw [resolveAux_cons_quote_match hq hmatch]
    subst hshape
    have h10 : (String.toList "aria-ref=e").length = 10 := by decide
    simp only [List.length_cons, List.length_append, h10]
    omega
  | case3 c cs hq hmatch ih =>
    rcases quotedRefOcc_cons.mp h with ⟨ds, b, hqc, hne, hdig, hshape⟩ | hocc
    · exfalso
      have hh := tryRefMatch_head c ds b hne hdig (isQuoteChar_not_digit hqc)
      rw [hshape, hh] at hmatch
      exact absurd hmatch (by simp)
    · rw [resolveAux_cons_quote_none hq hmatch]
      simp only [List.length_cons]
      exact Nat.succ_lt_succ (ih hocc)
  | case4 c cs hq ih =>
    rcases quotedRefOcc_cons.mp h with ⟨ds, b, hqc, hne, hdig, hshape⟩ | hocc
    · exact absurd hqc (by simp [hq])
    · rw [resolveAux_cons_notquote (by simpa using hq)]
      simp only [List.length_cons]
      exact Nat.succ_lt_succ (ih hocc)

/-- Claim C9: `resolveShortRefs` rewrites exactly the quote-enclosed `@eN`
occurrences.  The output equals the input precisely when the input holds no
matching-quote-enclosed `@eN` run — in particular a string whose `@eN`
occurrences are all unquoted comes back unchanged — and at a quoted
occurrence the rewrite turns quote-`@eN`-quote into quote-`aria-ref=eN`-quote
and continues with the remainder, leaving every other character unchanged. -/
theorem resolveShortRefs_exact (s : String) (q : Char) (ds b : List Char) :
    (RefRegistry.resolveShortRefs s = s ↔ ¬ QuotedRefOcc s.toList) ∧
    (isQuoteChar q = true → ds ≠ [] → (∀ d ∈ ds, d.isDigit = true) →
      resolveShortRefsAux (q :: '@' :: 'e' :: (ds ++ q :: b)) =
        q :: (String.toList "aria-ref=e" ++ ds ++ q :: resolveShortRefsAux b)) := by
  constructor
  · constructor
    · intro heq hocc
      have hlt := length_lt_resolveAux hocc
      have h2 : resolveShortRefsAux s.toList = s.toList := congrArg String.toList heq
      rw [h2] at hlt
      omega
    · intro hno
      unfold RefRegistry.resolveShortRefs
      rw [resolveAux_eq_self hno]
      rfl
  · intro hq hds hdig
    exact resolveAux_cons_quote_match hq
      (tryRefMatch_head q ds b hds hdig (isQuoteChar_not_digit hq))

/-- Witness for C9: the backtick-quoted ref of the unit tests, backtick @ e 5
backtick, rewritten to backtick aria-ref=e5 backtick. -/
theorem resolveShortRefs_exact_witness :
    resolveShortRefsAux (Char.ofNat 96 :: '@' :: 'e' :: (['5'] ++ Char.ofNat 96 :: [])) =
      Char.ofNat 96 :: (String.toList "aria-ref=e" ++ ['5'] ++
        Char.ofNat 96 :: resolveShortRefsAux []) :=
  (resolveShortRefs_exact "x" (Char.ofNat 96) ['5'] []).2 (by decide) (by decide)
    (by decide)

/-! ## Consistency of hasShortRefs and extractRefs (C10) -/

theorem hasAux_cons (x : Char) (xs : List Char) :
    hasShortRefsAux (x :: xs) = (refAtHead (x :: xs) || hasShortRefsAux xs) := rfl

theorem extractAux_cons_match {x b c : Char} {rest : List Char}
    (h : x = '@' ∧ b = 'e' ∧ c.isDigit = true) :
    extractRefsAux (x :: b :: c :: rest) =
      (x :: b :: c :: rest.takeWhile Char.isDigit)
        :: extractRefsAux (rest.dropWhile Char.isDigit) := by
  simp only [extractRefsAux]
  rw [if_pos h]

theorem extractAux_cons_nomatch {x b c : Char} {rest : List Char}
    (h : ¬(x = '@' ∧ b = 'e' ∧ c.isDigit = true)) :
    extractRefsAux (x :: b :: c :: rest) = extractRefsAux (b :: c :: rest) := by
  simp only [extractRefsAux]
  rw [if_neg h]

theorem hasAux_iff_extractAux (l : List Char) :
    hasShortRefsAux l = true ↔ extractRefsAux l ≠ [] := by
  induction l using extractRefsAux.induct with
  | case1 x b c rest hcond ih =>
    obtain ⟨rfl, rfl, hc⟩ := hcond
    rw [extractAux_cons_match ⟨rfl, rfl, hc⟩]
    simp [hasAux_cons, refAtHead, hc]
  | case2 x b c rest hcond ih =>
    rw [extractAux_cons_nomatch hcond]
    rw [hasAux_cons]
    have hrah : refAtHead (x :: b :: c :: rest) = false := by
      rw [← Bool.not_eq_true]
      intro habs
      apply hcond
      simp only [refAtHead, Bool.and_eq_true, decide_eq_true_eq] at habs
      exact ⟨habs.1.1, habs.1.2, habs.2⟩
    rw [hrah]
    simpa using ih
  | case3 x xs hshort ih =>
    have hrah : refAtHead (x :: xs) = false := by
      cases xs with
      | nil => rfl
      | cons y ys =>
        cases ys with
        | nil => rfl
        | cons z zs => exact absurd rfl (hshort y z zs)
    rw [hasAux_cons, hrah]
    have hext : extractRefsAux (x :: xs) = extractRefsAux xs := by
      cases xs with
      | nil => simp [extractRefsAux]
      | cons y ys =>
        cases ys with
        | nil => simp [extractRefsAux]
        | cons z zs => exact absurd rfl (hshort y z zs)
    rw [hext]
    simpa using ih
  | case4 => simp [hasShortRefsAux, extractRefsAux]

theorem setDedup_cons (x : List Char) (xs : List (List Char)) :
    setDedup (x :: xs) = x :: setDedup (xs.filter (fun y => !(y == x))) := by
  simp only [setDedup]

theorem setDedup_eq_nil_iff (l : List (List Char)) : setDedup l = [] ↔ l = [] := by
  cases l with
  | nil => simp [setDedup]
  | cons x xs => simp [setDedup_cons]

theorem mem_setDedup {y : List Char} (l : List (List Char)) :
    y ∈ setDedup l → y ∈ l := by
  induction l using setDedup.induct with
  | case1 =>
    intro hy
    simpa [setDedup] using hy
  | case2 x xs ih =>
    intro hy
    rw [setDedup_cons] at hy
    rcases List.mem_cons.mp hy with rfl | hy2
    · exact List.mem_cons_self _ _
    · exact List.mem_cons_of_mem _ (List.mem_filter.mp (ih hy2)).1

theorem nodup_setDedup (l : List (List Char)) : (setDedup l).Nodup := by
  induction l using setDedup.induct with
  | case1 => simp [setDedup]
  | case2 x xs ih =>
    rw [setDedup_cons]
    refine List.nodup_cons.mpr ⟨?_, ih⟩
    intro hx
    have := (List.mem_filter.mp (mem_setDedup _ hx)).2
    simp at this

/-- Membership is preserved into the deduplicated list: an element of the
input survives `setDedup` (its first occurrence is kept). -/
theorem mem_setDedup_of_mem {y : List Char} (l : List (List Char)) :
    y ∈ l → y ∈ setDedup l := by
  induction l using setDedup.induct with
  | case1 =>
    intro hy
    simp at hy
  | case2 x xs ih =>
    intro hy
    rw [setDedup_cons]
    rcases List.mem_cons.mp hy with rfl | hy2
    · exact List.mem_cons_self _ _
    · by_cases hyx : y = x
      · subst hyx
        exact List.mem_cons_self _ _
      · refine List.mem_cons_of_mem _ (ih ?_)
        exact List.mem_filter.mpr ⟨hy2, by simp [hyx]⟩

/-- Spec-side rendering of the claim about the output of `extractRefs`: scan
the match list left to right, keep an element only when it has not been seen
before — so each distinct element appears exactly once, at the position of
its first occurrence, in scan order. -/
def keepFirst {α : Type} [DecidableEq α] : List α → List α → List α
  | _, [] => []
  | seen, x :: xs =>
    if x ∈ seen then keepFirst seen xs else x :: keepFirst (x :: seen) xs

/-- Spec-side first-occurrence deduplication: `keepFirst` starting from an
empty seen-set. -/
def firstOccurrenceDedup {α : Type} [DecidableEq α] (l : List α) : List α :=
  keepFirst [] l

theorem keepFirst_eq_setDedup (l : List (List Char)) :
    ∀ seen : List (List Char),
      keepFirst seen l = setDedup (l.filter (fun y => decide (y ∉ seen))) := by
  induction l with
  | nil =>
    intro seen
    simp [keepFirst, setDedup]
  | cons x xs ih =>
    intro seen
    by_cases hx : x ∈ seen
    · rw [show keepFirst seen (x :: xs) = keepFirst seen xs by simp [keepFirst, hx]]
      rw [show (x :: xs).filter (fun y => decide (y ∉ seen)) =
          xs.filter (fun y => decide (y ∉ seen)) by simp [List.filter_cons, hx]]
      exact ih seen
    · rw [show keepFirst seen (x :: xs) = x :: keepFirst (x :: seen) xs by
        simp [keepFirst, hx]]
      rw [show (x :: xs).filter (fun y => decide (y ∉ seen)) =
          x :: xs.filter (fun y => decide (y ∉ seen)) by simp [List.filter_cons, hx]]
      rw [setDedup_cons, ih (x :: seen)]
      congr 1
      apply congrArg setDedup
      rw [List.filter_filter]
      apply List.filter_congr
      intro y hy
      by_cases hyx : y = x
      · subst hyx
        simp
      · by_cases hys : y ∈ seen <;> simp [hyx, hys]

/-- The two deduplication algorithms agree: the implementation-side
`setDedup` (the `new Set` embedding) computes exactly the spec-side
first-occurrence deduplication. -/
theorem setDedup_eq_firstOccurrenceDedup (l : List (List Char)) :
    setDedup l = firstOccurrenceDedup l := by
  unfold firstOccurrenceDedup
  rw [keepFirst_eq_setDedup l []]
  congr 1
  simp

/-- Claim C10: `hasShortRefs` is true exactly when `extractRefs` returns a
non-empty list; and `extractRefs` returns each distinct matched ref exactly
once, with the leading `@` removed, in order of first occurrence: it equals
the spec-side first-occurrence deduplication of the match list with `@`
stripped (completeness, uniqueness and order in one equation), it is
duplicate-free, and its members are exactly the matched refs. -/
theorem hasShortRefs_extractRefs (s : String) :
    (RefRegistry.hasShortRefs s = true ↔ RefRegistry.extractRefs s ≠ []) ∧
    RefRegistry.extractRefs s =
      (firstOccurrenceDedup ((extractRefsAux s.toList).map (fun m => m.drop 1))).map
        (fun m => String.mk m) ∧
    (RefRegistry.extractRefs s).Nodup ∧
    (∀ r, r ∈ RefRegistry.extractRefs s ↔
      r ∈ (extractRefsAux s.toList).map (fun m => String.mk (m.drop 1))) := by
  have hnil : (RefRegistry.extractRefs s = []) ↔ (extractRefsAux s.toList = []) := by
    unfold RefRegistry.extractRefs
    rw [List.map_eq_nil_iff, setDedup_eq_nil_iff, List.map_eq_nil_iff]
  have hmapmap : (extractRefsAux s.toList).map (fun m => String.mk (m.drop 1)) =
      ((extractRefsAux s.toList).map (fun m => m.drop 1)).map (fun m => String.mk m) := by
    rw [List.map_map]
    rfl
  refine ⟨?_, ?_, ?_, ?_⟩
  · exact (hasAux_iff_extractAux s.toList).trans (not_congr hnil).symm
  · unfold RefRegistry.extractRefs
    rw [setDedup_eq_firstOccurrenceDedup]
  · unfold RefRegistry.extractRefs
    have hinj : Function.Injective (fun m : List Char => String.mk m) := by
      intro a b hab
      injection hab
    exact (nodup_setDedup _).map hinj
  · intro r
    unfold RefRegistry.extractRefs
    rw [hmapmap]
    constructor
    · intro hr
      rcases List.mem_map.mp hr with ⟨y, hy, rfl⟩
      exact List.mem_map_of_mem _ (mem_setDedup _ hy)
    · intro hr
      rcases List.mem_map.mp hr with ⟨y, hy, rfl⟩
      exact List.mem_map_of_mem _ (mem_setDedup_of_mem _ hy)

/-- Witness for C10 at the extractRefs unit-test input: completeness puts the
second matched ref e16 into the returned list. -/
theorem hasShortRefs_extractRefs_witness :
    "e16" ∈ RefRegistry.extractRefs "click @e5 then @e16 and @e5 again" :=
  ((hasShortRefs_extractRefs "click @e5 then @e16 and @e5 again").2.2.2 "e16").mpr
    (by simp [extractRefsAux])
